import Mathlib

/-!
Shallow embedding of the thread-pool core of `fbutils`
(`src/include/fbu/thread_pool.hpp`, with the legacy duplicate
`src/cpp/thread_pool.hpp` where it differs).

The pool's shared mutable state (job queue, busy-worker count, termination
flag) is protected by a single mutex; every code region executed under that
mutex (or a single unprotected access to an atomic) becomes one atomic step
of an interleaving transition system.  Each worker thread runs
`threadExecLoop`, modelled by a small per-worker state machine; callers can
interleave `addJob`, `ThreadPoolJobsExecutor::addJob` (two lock regions) and
the destructor's `mTerminate = true`.  `waitForCompletion` predicates are
modelled as the boolean loop conditions the source checks under the lock.

Jobs are modelled as tagged identifiers; executing a job body increments a
shared counter (the observable effect used by the repository's tests) and,
for a job submitted through a `ThreadPoolJobsExecutor`, decrements that
executor's own job count (the wrapper installed by `ThreadPoolJobsExecutor::addJob`).
-/

namespace Fbu

/-- Which tracking layer a job was submitted through: one of the two
`ThreadPoolJobsExecutor` instances sharing the pool, or a direct
`ThreadPool::addJob` call. -/
inductive Owner where
  | execA
  | execB
  | plain
deriving DecidableEq, Repr

/-- A job: a zero-argument callable, identified by its owner tag and a
numeric id chosen at submission. -/
structure Job where
  owner : Owner
  id : Nat
deriving DecidableEq, Repr

/-- Local state of one worker thread running `ThreadPool::threadExecLoop`:

* `idle`    — at the top of the `while (!mTerminate)` loop;
* `waiting` — passed the loop-head check (read `mTerminate == false`) and
  now inside `grabNextJob`, blocked on `mJobAvailableCV.wait` until the
  queue is non-empty or the termination flag is set;
* `running j` — woke with the queue non-empty and `mTerminate` still false:
  incremented the busy count, popped `j` from the queue front, released the
  lock, and is about to execute `j`'s body;
* `didJob`  — the job body returned; the busy count has not yet been
  decremented (that happens in a later lock region of `threadExecLoop`);
* `noop`    — woke with `mTerminate` set: incremented the busy count but
  popped nothing, holding the no-op stand-in `[]{}`;
* `stopped` — the loop-head check saw `mTerminate == true`; thread exits. -/
inductive WorkerState where
  | idle
  | waiting
  | running (j : Job)
  | didJob
  | noop
  | stopped
deriving DecidableEq, Repr

/-- The pool's shared state, the two executors' counts, and ghost history.

`queue`, `busy`, `terminate` are the members `mJobsQueue`, `mNumBusyThreads`
(an `atomic_int`, hence `Int`), `mTerminate` of `ThreadPool`.  `workers` is
the vector `mThreads`, reduced to each thread's loop position.  `cA`, `cB`
are the `mNumJobs` members of two `ThreadPoolJobsExecutor`s sharing this
pool; `pendingA`, `pendingB` count executor submissions whose first lock
region (`++mNumJobs`) has run but whose enqueue to the pool has not.
`submitted`, `dequeued`, `finished` record history in order; `counter` is
the shared counter each job body increments. -/
structure PoolState where
  queue : List Job
  busy : Int
  terminate : Bool
  workers : List WorkerState
  submitted : List Job
  dequeued : List Job
  finished : List Job
  cA : Int
  cB : Int
  pendingA : Nat
  pendingB : Nat
  counter : Int
deriving DecidableEq, Repr

/-- The state just after `ThreadPool::ThreadPool` returns: `n` workers all
at the top of their loop, empty queue, zero busy count, flag clear. -/
def initState (n : Nat) : PoolState :=
  { queue := []
    busy := 0
    terminate := false
    workers := List.replicate n .idle
    submitted := []
    dequeued := []
    finished := []
    cA := 0
    cB := 0
    pendingA := 0
    pendingB := 0
    counter := 0 }

/-- `ThreadPool::addJob`: under the queue lock, push the job at the back of
`mJobsQueue` (and notify one worker). -/
def addJobResult (s : PoolState) (j : Job) : PoolState :=
  { s with queue := s.queue ++ [j], submitted := s.submitted ++ [j] }

/-- First lock region of `ThreadPoolJobsExecutor::addJob` for executor A:
`++mNumJobs` under the executor's own mutex. -/
def execIncAResult (s : PoolState) : PoolState :=
  { s with cA := s.cA + 1, pendingA := s.pendingA + 1 }

/-- Second part of `ThreadPoolJobsExecutor::addJob` for executor A: hand the
wrapper job to `mTP.addJob`, which pushes it at the back of the pool queue. -/
def execEnqAResult (s : PoolState) (n : Nat) : PoolState :=
  { s with queue := s.queue ++ [⟨.execA, n⟩]
           submitted := s.submitted ++ [⟨.execA, n⟩]
           pendingA := s.pendingA - 1 }

/-- First lock region of `ThreadPoolJobsExecutor::addJob` for executor B. -/
def execIncBResult (s : PoolState) : PoolState :=
  { s with cB := s.cB + 1, pendingB := s.pendingB + 1 }

/-- Second part of `ThreadPoolJobsExecutor::addJob` for executor B. -/
def execEnqBResult (s : PoolState) (n : Nat) : PoolState :=
  { s with queue := s.queue ++ [⟨.execB, n⟩]
           submitted := s.submitted ++ [⟨.execB, n⟩]
           pendingB := s.pendingB - 1 }

/-- `~ThreadPool` begins: `mTerminate = true` (then `notify_all` and joins). -/
def setTerminateResult (s : PoolState) : PoolState :=
  { s with terminate := true }

/-- A worker at the loop head reads `mTerminate == false` and enters
`grabNextJob`, blocking on `mJobAvailableCV.wait`. -/
def enterGrabResult (s : PoolState) (i : Nat) : PoolState :=
  { s with workers := s.workers.set i .waiting }

/-- A worker at the loop head reads `mTerminate == true` and exits the loop. -/
def stopResult (s : PoolState) (i : Nat) : PoolState :=
  { s with workers := s.workers.set i .stopped }

/-- `grabNextJob`, non-terminating branch: the wait predicate
`mJobsQueue.size() > 0 || mTerminate` is satisfied by the queue, the flag is
still clear, so the worker does `++mNumBusyThreads`, swaps out
`mJobsQueue.front()` and pops it. -/
def grabResult (s : PoolState) (i : Nat) (j : Job) (rest : List Job) : PoolState :=
  { s with queue := rest
           busy := s.busy + 1
           dequeued := s.dequeued ++ [j]
           workers := s.workers.set i (.running j) }

/-- `grabNextJob`, terminating branch: the wait was satisfied with
`mTerminate` set; the worker still does `++mNumBusyThreads` (the increment
comes before the flag check) but pops nothing and receives the no-op
stand-in `[]{}`. -/
def grabNoopResult (s : PoolState) (i : Nat) : PoolState :=
  { s with busy := s.busy + 1, workers := s.workers.set i .noop }

/-- `lJob()` in `threadExecLoop`, outside the lock: the job body runs — it
increments the shared counter and, when the job was wrapped by a
`ThreadPoolJobsExecutor`, finishes with `--mNumJobs; mCompletion.notify_all()`
on that executor. -/
def runBodyResult (s : PoolState) (i : Nat) (j : Job) : PoolState :=
  { s with counter := s.counter + 1
           finished := s.finished ++ [j]
           cA := if j.owner = .execA then s.cA - 1 else s.cA
           cB := if j.owner = .execB then s.cB - 1 else s.cB
           workers := s.workers.set i .didJob }

/-- The lock region after `lJob()` in `threadExecLoop`:
`--mNumBusyThreads; mCompletionCV.notify_all()`. -/
def finishBusyResult (s : PoolState) (i : Nat) : PoolState :=
  { s with busy := s.busy - 1, workers := s.workers.set i .idle }

/-- The same region for a worker that got the no-op stand-in: the no-op body
does nothing, then `--mNumBusyThreads`. -/
def noopFinishResult (s : PoolState) (i : Nat) : PoolState :=
  { s with busy := s.busy - 1, workers := s.workers.set i .idle }

/-- One atomic step of the interleaved system: a caller or worker executes
one lock region (or one atomic access) of the source. -/
inductive Step : PoolState → PoolState → Prop where
  | addJob (s : PoolState) (n : Nat) :
      Step s (addJobResult s ⟨.plain, n⟩)
  | execIncA (s : PoolState) :
      Step s (execIncAResult s)
  | execEnqA (s : PoolState) (n : Nat) (h : 0 < s.pendingA) :
      Step s (execEnqAResult s n)
  | execIncB (s : PoolState) :
      Step s (execIncBResult s)
  | execEnqB (s : PoolState) (n : Nat) (h : 0 < s.pendingB) :
      Step s (execEnqBResult s n)
  | setTerminate (s : PoolState) (h : s.terminate = false) :
      Step s (setTerminateResult s)
  | enterGrab (s : PoolState) (i : Nat)
      (hw : s.workers.get? i = some .idle) (ht : s.terminate = false) :
      Step s (enterGrabResult s i)
  | stop (s : PoolState) (i : Nat)
      (hw : s.workers.get? i = some .idle) (ht : s.terminate = true) :
      Step s (stopResult s i)
  | grab (s : PoolState) (i : Nat) (j : Job) (rest : List Job)
      (hw : s.workers.get? i = some .waiting) (ht : s.terminate = false)
      (hq : s.queue = j :: rest) :
      Step s (grabResult s i j rest)
  | grabNoop (s : PoolState) (i : Nat)
      (hw : s.workers.get? i = some .waiting) (ht : s.terminate = true) :
      Step s (grabNoopResult s i)
  | runBody (s : PoolState) (i : Nat) (j : Job)
      (hw : s.workers.get? i = some (.running j)) :
      Step s (runBodyResult s i j)
  | finishBusy (s : PoolState) (i : Nat)
      (hw : s.workers.get? i = some .didJob) :
      Step s (finishBusyResult s i)
  | noopFinish (s : PoolState) (i : Nat)
      (hw : s.workers.get? i = some .noop) :
      Step s (noopFinishResult s i)

/-- States reachable from `s0` by interleaved steps. -/
def Reachable (s0 s : PoolState) : Prop :=
  Relation.ReflTransGen Step s0 s

/-- The loop condition of `ThreadPool::waitForCompletion` in
`src/include/fbu/thread_pool.hpp`:
`while (mJobsQueue.size() > 0 || mNumBusyThreads > 0) wait;` — the caller
keeps waiting while this is `true` and returns when it is `false`, checked
under the queue lock. -/
def waitForCompletionCond (s : PoolState) : Bool :=
  decide (s.queue.length > 0) || decide (s.busy > 0)

/-- The loop condition of `ThreadPool::waitForCompletion` in the legacy
duplicate `src/cpp/thread_pool.hpp`:
`while (mJobsQueue.size() > 0 && mNumBusyThreads > 0) wait;`. -/
def waitForCompletionCondCpp (s : PoolState) : Bool :=
  decide (s.queue.length > 0) && decide (s.busy > 0)

/-- The wait predicate of `ThreadPoolJobsExecutor::waitForCompletion` for
executor A: `mCompletion.wait(lLock, [&](){ return mNumJobs == 0; })`
returns exactly when this is `true`. -/
def execWaitDoneA (s : PoolState) : Bool :=
  decide (s.cA = 0)

/-- The wait predicate of `ThreadPoolJobsExecutor::waitForCompletion` for
executor B. -/
def execWaitDoneB (s : PoolState) : Bool :=
  decide (s.cB = 0)

/-- `ThreadPool::getNumThreads`: `mThreads.size()`. -/
def getNumThreads (s : PoolState) : Nat :=
  s.workers.length

/-- `ThreadPool::getNumBusyThreads`: the value of `mNumBusyThreads`. -/
def getNumBusyThreads (s : PoolState) : Int :=
  s.busy

/-- The worker-count computation of the `ThreadPool` constructor:
`pNumThreads != 0 ? pNumThreads : (hardware_concurrency() != 0 ?
hardware_concurrency() : 2)`, with `hw` the platform-reported hardware
concurrency. -/
def numThreadsFor (req hw : Nat) : Nat :=
  if req ≠ 0 then req else if hw ≠ 0 then hw else 2

/-- `true` for a worker that has incremented `mNumBusyThreads` and not yet
decremented it. -/
def isBusyWorker : WorkerState → Bool
  | .running _ => true
  | .didJob => true
  | .noop => true
  | _ => false

/-- The multiset of jobs currently held (dequeued, body not yet run) by a
worker. -/
def heldJobs : WorkerState → Multiset Job
  | .running j => {j}
  | _ => 0

/-- Jobs held across all workers. -/
def allHeldJobs (ws : List WorkerState) : Multiset Job :=
  (ws.map heldJobs).sum

/-- Number of jobs with a given owner tag in a list. -/
def ocount (o : Owner) (l : List Job) : Nat :=
  l.countP (fun j => decide (j.owner = o))

/-- The state invariant tying the pool's shared fields to the ghost
history: worker count is fixed, `mNumBusyThreads` counts exactly the
workers between their increment and decrement, the submission history
splits into the dequeue history followed by the current queue, the dequeue
history splits (as a multiset) into finished jobs and jobs held by running
workers, the shared counter counts finished bodies, and each executor's
`mNumJobs` counts its submitted-but-unfinished jobs plus its submissions
still between their two lock regions. -/
structure Inv (n : Nat) (s : PoolState) : Prop where
  wlen : s.workers.length = n
  busyEq : s.busy = (s.workers.countP isBusyWorker : Int)
  subEq : s.submitted = s.dequeued ++ s.queue
  deqEq : (s.dequeued : Multiset Job) = (s.finished : Multiset Job) + allHeldJobs s.workers
  cntEq : s.counter = (s.finished.length : Int)
  cAEq : s.cA = (s.pendingA : Int) + (ocount .execA s.submitted : Int)
                  - (ocount .execA s.finished : Int)
  cBEq : s.cB = (s.pendingB : Int) + (ocount .execB s.submitted : Int)
                  - (ocount .execB s.finished : Int)

lemma ocount_append (o : Owner) (l : List Job) (j : Job) :
    ocount o (l ++ [j]) = ocount o l + (if j.owner = o then 1 else 0) := by
  simp [ocount, List.countP_append, List.countP_cons]

lemma countP_set_of_get (p : WorkerState → Bool) :
    ∀ (ws : List WorkerState) (i : Nat) (w w' : WorkerState),
      ws.get? i = some w →
      (ws.set i w').countP p + (if p w then 1 else 0)
        = ws.countP p + (if p w' then 1 else 0) := by
  intro ws
  induction ws with
  | nil => intro i w w' h; simp at h
  | cons a l ih =>
    intro i w w' h
    cases i with
    | zero =>
      rw [List.get?_cons_zero] at h
      cases h
      simp [List.countP_cons]
      omega
    | succ i =>
      rw [List.get?_cons_succ] at h
      have := ih i w w' h
      simp [List.countP_cons]
      omega

lemma allHeldJobs_set_of_get :
    ∀ (ws : List WorkerState) (i : Nat) (w w' : WorkerState),
      ws.get? i = some w →
      allHeldJobs (ws.set i w') + heldJobs w = allHeldJobs ws + heldJobs w' := by
  intro ws
  induction ws with
  | nil => intro i w w' h; simp at h
  | cons a l ih =>
    intro i w w' h
    cases i with
    | zero =>
      rw [List.get?_cons_zero] at h
      cases h
      simp only [List.set_cons_zero, allHeldJobs, List.map_cons, List.sum_cons]
      abel
    | succ i =>
      rw [List.get?_cons_succ] at h
      have hrec := ih i w w' h
      simp only [List.set_cons_succ, allHeldJobs, List.map_cons, List.sum_cons] at hrec ⊢
      rw [add_assoc, hrec, ← add_assoc]

lemma step_inv {n : Nat} {s s' : PoolState} (hi : Inv n s) (hs : Step s s') :
    Inv n s' := by
  obtain ⟨hw, hb, hsub, hdeq, hcnt, hA, hB⟩ := hi
  cases hs with
  | addJob m =>
    refine ⟨hw, hb, ?_, hdeq, hcnt, ?_, ?_⟩
    · simp [addJobResult, hsub, List.append_assoc]
    · simp [addJobResult, ocount_append, hA]
    · simp [addJobResult, ocount_append, hB]
  | execIncA =>
    refine ⟨hw, hb, hsub, hdeq, hcnt, ?_, hB⟩
    simp [execIncAResult]
    omega
  | execEnqA m hp =>
    refine ⟨hw, hb, ?_, hdeq, hcnt, ?_, ?_⟩
    · simp [execEnqAResult, hsub, List.append_assoc]
    · simp [execEnqAResult, ocount_append, hA]
      omega
    · simp [execEnqBResult, execEnqAResult, ocount_append, hB]
  | execIncB =>
    refine ⟨hw, hb, hsub, hdeq, hcnt, hA, ?_⟩
    simp [execIncBResult]
    omega
  | execEnqB m hp =>
    refine ⟨hw, hb, ?_, hdeq, hcnt, ?_, ?_⟩
    · simp [execEnqBResult, hsub, List.append_assoc]
    · simp [execEnqBResult, ocount_append, hA]
    · simp [execEnqBResult, ocount_append, hB]
      omega
  | setTerminate h =>
    exact ⟨hw, hb, hsub, hdeq, hcnt, hA, hB⟩
  | enterGrab i hwk ht =>
    have hc := countP_set_of_get isBusyWorker s.workers i .idle .waiting hwk
    have hh := allHeldJobs_set_of_get s.workers i .idle .waiting hwk
    simp [isBusyWorker] at hc
    simp [heldJobs] at hh
    refine ⟨?_, ?_, hsub, ?_, hcnt, hA, hB⟩
    · simp [enterGrabResult, hw]
    · simp [enterGrabResult, hb, hc]
    · simp [enterGrabResult, hdeq, hh]
  | stop i hwk ht =>
    have hc := countP_set_of_get isBusyWorker s.workers i .idle .stopped hwk
    have hh := allHeldJobs_set_of_get s.workers i .idle .stopped hwk
    simp [isBusyWorker] at hc
    simp [heldJobs] at hh
    refine ⟨?_, ?_, hsub, ?_, hcnt, hA, hB⟩
    · simp [stopResult, hw]
    · simp [stopResult, hb, hc]
    · simp [stopResult, hdeq, hh]
  | grab i j rest hwk ht hq =>
    have hc := countP_set_of_get isBusyWorker s.workers i .waiting (.running j) hwk
    have hh := allHeldJobs_set_of_get s.workers i .waiting (.running j) hwk
    simp [isBusyWorker] at hc
    simp [heldJobs] at hh
    refine ⟨?_, ?_, ?_, ?_, hcnt, hA, hB⟩
    · simp [grabResult, hw]
    · simp [grabResult, hb]
      omega
    · simp [grabResult, hsub, hq]
    · simp only [grabResult]
      rw [← Multiset.coe_add, Multiset.coe_singleton, hdeq, hh, add_assoc]
  | grabNoop i hwk ht =>
    have hc := countP_set_of_get isBusyWorker s.workers i .waiting .noop hwk
    have hh := allHeldJobs_set_of_get s.workers i .waiting .noop hwk
    simp [isBusyWorker] at hc
    simp [heldJobs] at hh
    refine ⟨?_, ?_, hsub, ?_, hcnt, hA, hB⟩
    · simp [grabNoopResult, hw]
    · simp [grabNoopResult, hb]
      omega
    · simp [grabNoopResult, hdeq, hh]
  | runBody i j hwk =>
    have hc := countP_set_of_get isBusyWorker s.workers i (.running j) .didJob hwk
    have hh := allHeldJobs_set_of_get s.workers i (.running j) .didJob hwk
    simp [isBusyWorker] at hc
    simp [heldJobs] at hh
    refine ⟨?_, ?_, hsub, ?_, ?_, ?_, ?_⟩
    · simp [runBodyResult, hw]
    · simp [runBodyResult, hb, hc]
    · simp only [runBodyResult]
      rw [← Multiset.coe_add, Multiset.coe_singleton, hdeq, ← hh]
      abel
    · simp [runBodyResult, hcnt]
    · simp only [runBodyResult]
      by_cases hoA : j.owner = .execA
      all_goals simp [hoA, ocount_append, hA]
      all_goals omega
    · simp only [runBodyResult]
      by_cases hoB : j.owner = .execB
      all_goals simp [hoB, ocount_append, hB]
      all_goals omega
  | finishBusy i hwk =>
    have hc := countP_set_of_get isBusyWorker s.workers i .didJob .idle hwk
    have hh := allHeldJobs_set_of_get s.workers i .didJob .idle hwk
    simp [isBusyWorker] at hc
    simp [heldJobs] at hh
    refine ⟨?_, ?_, hsub, ?_, hcnt, hA, hB⟩
    · simp [finishBusyResult, hw]
    · simp [finishBusyResult, hb]
      omega
    · simp [finishBusyResult, hdeq, hh]
  | noopFinish i hwk =>
    have hc := countP_set_of_get isBusyWorker s.workers i .noop .idle hwk
    have hh := allHeldJobs_set_of_get s.workers i .noop .idle hwk
    simp [isBusyWorker] at hc
    simp [heldJobs] at hh
    refine ⟨?_, ?_, hsub, ?_, hcnt, hA, hB⟩
    · simp [noopFinishResult, hw]
    · simp [noopFinishResult, hb]
      omega
    · simp [noopFinishResult, hdeq, hh]

lemma countP_replicate_idle (n : Nat) :
    (List.replicate n WorkerState.idle).countP isBusyWorker = 0 := by
  induction n with
  | zero => simp
  | succ n ih => simp [List.replicate_succ, List.countP_cons, isBusyWorker, ih]

lemma inv_init (n : Nat) : Inv n (initState n) := by
  refine ⟨?_, ?_, ?_, ?_, ?_, ?_, ?_⟩ <;>
    simp [initState, allHeldJobs, ocount, heldJobs, countP_replicate_idle]

lemma reachable_inv {n : Nat} {s : PoolState}
    (h : Reachable (initState n) s) : Inv n s := by
  induction h with
  | refl => exact inv_init n
  | tail h1 h2 ih => exact step_inv ih h2

lemma allHeldJobs_eq_zero_of_countP_zero :
    ∀ ws : List WorkerState, ws.countP isBusyWorker = 0 → allHeldJobs ws = 0 := by
  intro ws
  induction ws with
  | nil => intro _; simp [allHeldJobs]
  | cons a l ih =>
    intro h
    rw [List.countP_cons] at h
    have hl : l.countP isBusyWorker = 0 := by omega
    have ha : (if isBusyWorker a then 1 else 0) = 0 := by omega
    simp only [allHeldJobs, List.map_cons, List.sum_cons]
    rw [show ((l.map heldJobs).sum : Multiset Job) = allHeldJobs l from rfl, ih hl]
    cases a <;> simp [heldJobs, isBusyWorker] at ha ⊢

/-! ### The `JobCounter` component

`JobCounter::increment`, `::decrement` and `::waitForCompletion` each take
the counter's own mutex, so a history of calls is a sequence of atomic
operations on the count `mNumJobs`.  `decrement` contains
`assert(mNumJobs > 0)`; a call that would fire the assertion is modelled as
`none` (crash), all other calls return the new count. -/

/-- One call in a `JobCounter` history. -/
inductive JCOp where
  | inc
  | dec
deriving DecidableEq, Repr

/-- `JobCounter::increment`: `++mNumJobs` under the counter's mutex. -/
def JobCounterIncrement (c : Int) : Int := c + 1

/-- `JobCounter::decrement`: `assert(mNumJobs > 0); --mNumJobs;
mCompletion.notify_all();` — `none` when the assertion fires. -/
def JobCounterDecrement (c : Int) : Option Int :=
  if 0 < c then some (c - 1) else none

/-- The wait predicate of `JobCounter::waitForCompletion`:
`mCompletion.wait(lLock, [&]{ return mNumJobs == 0; })` returns exactly
when this is `true`. -/
def JobCounterWaitDone (c : Int) : Bool := decide (c = 0)

/-- Run a history of `JobCounter` calls from count `c`; `none` as soon as
one `decrement` fires its assertion. -/
def runOps : Int → List JCOp → Option Int
  | c, [] => some c
  | c, .inc :: ops => runOps (JobCounterIncrement c) ops
  | c, .dec :: ops =>
      match JobCounterDecrement c with
      | some c2 => runOps c2 ops
      | none => none

/-- Number of `increment` calls in a history. -/
def countInc (l : List JCOp) : Nat := l.countP (fun o => decide (o = .inc))

/-- Number of `decrement` calls in a history. -/
def countDec (l : List JCOp) : Nat := l.countP (fun o => decide (o = .dec))

/-- The pairing discipline of §4.3 relative to a starting count `c`: at
every point of the history, the decrements so far never overtake `c` plus
the increments so far (each `decrement` is matched by a strictly greater
number of prior increments). -/
def ValidAt (c : Int) (ops : List JCOp) : Prop :=
  ∀ k, k ≤ ops.length →
    (countDec (ops.take k) : Int) ≤ c + (countInc (ops.take k) : Int)

instance (c : Int) (ops : List JCOp) : Decidable (ValidAt c ops) := by
  unfold ValidAt
  infer_instance

lemma validAt_cons_inc {c : Int} {t : List JCOp}
    (h : ValidAt c (.inc :: t)) : ValidAt (JobCounterIncrement c) t := by
  intro k hk
  have := h (k + 1) (by simpa using Nat.succ_le_succ hk)
  simp only [List.take_succ_cons, countDec, countInc, List.countP_cons] at this ⊢
  simp only [JobCounterIncrement]
  simp at this
  omega

lemma validAt_cons_dec {c : Int} {t : List JCOp}
    (h : ValidAt c (.dec :: t)) : 0 < c ∧ ValidAt (c - 1) t := by
  constructor
  · have := h 1 (by simp)
    simp [countDec, countInc, List.countP_cons] at this
    omega
  · intro k hk
    have := h (k + 1) (by simpa using Nat.succ_le_succ hk)
    simp only [List.take_succ_cons, countDec, countInc, List.countP_cons] at this ⊢
    simp at this
    omega

lemma runOps_valid :
    ∀ (ops : List JCOp) (c : Int), ValidAt c ops →
      runOps c ops = some (c + (countInc ops : Int) - (countDec ops : Int)) := by
  intro ops
  induction ops with
  | nil => intro c _; simp [runOps, countInc, countDec]
  | cons o t ih =>
    intro c hv
    cases o with
    | inc =>
      have h2 := ih (JobCounterIncrement c) (validAt_cons_inc hv)
      have hI : countInc (JCOp.inc :: t) = countInc t + 1 := by
        simp [countInc, List.countP_cons]
      have hD : countDec (JCOp.inc :: t) = countDec t := by
        simp [countDec, List.countP_cons]
      simp only [runOps]
      rw [h2, hI, hD]
      congr 1
      simp only [JobCounterIncrement]
      push_cast
      ring
    | dec =>
      obtain ⟨hpos, hv2⟩ := validAt_cons_dec hv
      have hd : JobCounterDecrement c = some (c - 1) := by
        simp [JobCounterDecrement, hpos]
      have h2 := ih (c - 1) hv2
      have hI : countInc (JCOp.dec :: t) = countInc t := by
        simp [countInc, List.countP_cons]
      have hD : countDec (JCOp.dec :: t) = countDec t + 1 := by
        simp [countDec, List.countP_cons]
      simp only [runOps, hd]
      rw [h2, hI, hD]
      congr 1
      push_cast
      ring

lemma validAt_take {c : Int} {ops : List JCOp} (h : ValidAt c ops) (k : Nat) :
    ValidAt c (ops.take k) := by
  intro m hm
  rw [List.take_take]
  have hm2 : m ≤ min k ops.length := by
    simpa [List.length_take] using hm
  exact h (min m k) (by omega)

/-! ### Concrete traces used as witnesses -/

/-- The job used in the single-worker traces. -/
def jobP : Job := ⟨.plain, 1⟩

/-- One worker has entered `grabNextJob` and is waiting. -/
def s1a : PoolState := enterGrabResult (initState 1) 0

/-- A job has been pushed. -/
def s1b : PoolState := addJobResult s1a jobP

/-- The worker dequeued the job and is executing it: the queue is empty
while `mNumBusyThreads == 1`. -/
def s1c : PoolState := grabResult s1b 0 jobP []

/-- The job body has run. -/
def s1d : PoolState := runBodyResult s1c 0 jobP

/-- The worker decremented the busy count: the pool is idle again. -/
def s1e : PoolState := finishBusyResult s1d 0

lemma reach_s1a : Reachable (initState 1) s1a :=
  Relation.ReflTransGen.tail Relation.ReflTransGen.refl
    (Step.enterGrab _ 0 rfl rfl)

lemma reach_s1c : Reachable (initState 1) s1c :=
  Relation.ReflTransGen.tail
    (Relation.ReflTransGen.tail reach_s1a (Step.addJob _ 1))
    (Step.grab _ 0 jobP [] rfl rfl rfl)

lemma reach_s1e : Reachable (initState 1) s1e :=
  Relation.ReflTransGen.tail
    (Relation.ReflTransGen.tail reach_s1c (Step.runBody _ 0 jobP rfl))
    (Step.finishBusy _ 0 rfl)

/-- The job submitted through executor A in the shared-pool trace. -/
def jobA : Job := ⟨.execA, 1⟩

/-- The job submitted through executor B in the shared-pool trace. -/
def jobB : Job := ⟨.execB, 2⟩

/-- Shared-pool trace: one worker; executor A submits `jobA`, executor B
submits `jobB`, the worker runs `jobA` to completion; `jobB` is still
queued. -/
def s3h : PoolState :=
  finishBusyResult
    (runBodyResult
      (grabResult
        (execEnqBResult (execIncBResult (execEnqAResult (execIncAResult s1a) 1)) 2)
        0 jobA [jobB])
      0 jobA)
    0

lemma reach_s3h : Reachable (initState 1) s3h :=
  Relation.ReflTransGen.tail
    (Relation.ReflTransGen.tail
      (Relation.ReflTransGen.tail
        (Relation.ReflTransGen.tail
          (Relation.ReflTransGen.tail
            (Relation.ReflTransGen.tail
              (Relation.ReflTransGen.tail reach_s1a (Step.execIncA _))
              (Step.execEnqA _ 1 (by decide)))
            (Step.execIncB _))
          (Step.execEnqB _ 2 (by decide)))
        (Step.grab _ 0 jobA [jobB] rfl rfl rfl))
      (Step.runBody _ 0 jobA rfl))
    (Step.finishBusy _ 0 rfl)

/-- First job of the two-worker trace. -/
def job1 : Job := ⟨.plain, 1⟩

/-- Second job of the two-worker trace. -/
def job2 : Job := ⟨.plain, 2⟩

/-- Two-worker trace: `job1` then `job2` are submitted (FIFO dequeue order
`job1`, `job2`), each worker takes one, and the worker holding `job2`
finishes first — completion order is the reverse of submission order. -/
def s4h : PoolState :=
  runBodyResult
    (runBodyResult
      (grabResult
        (grabResult
          (addJobResult (addJobResult
            (enterGrabResult (enterGrabResult (initState 2) 0) 1) job1) job2)
          0 job1 [job2])
        1 job2 [])
      1 job2)
    0 job1

lemma reach_s4h : Reachable (initState 2) s4h :=
  Relation.ReflTransGen.tail
    (Relation.ReflTransGen.tail
      (Relation.ReflTransGen.tail
        (Relation.ReflTransGen.tail
          (Relation.ReflTransGen.tail
            (Relation.ReflTransGen.tail
              (Relation.ReflTransGen.tail
                (Relation.ReflTransGen.tail Relation.ReflTransGen.refl
                  (Step.enterGrab _ 0 rfl rfl))
                (Step.enterGrab _ 1 rfl rfl))
              (Step.addJob _ 1))
            (Step.addJob _ 2))
          (Step.grab _ 0 job1 [job2] rfl rfl rfl))
        (Step.grab _ 1 job2 [] rfl rfl rfl))
      (Step.runBody _ 1 job2 rfl))
    (Step.runBody _ 0 job1 rfl)

/-- Shutdown trace: the single worker is waiting inside `grabNextJob` when
the destructor sets the termination flag; the worker wakes through the
terminating branch, incrementing the busy count without taking any job. -/
def s10c : PoolState := grabNoopResult (setTerminateResult s1a) 0

lemma reach_s10c : Reachable (initState 1) s10c :=
  Relation.ReflTransGen.tail
    (Relation.ReflTransGen.tail reach_s1a (Step.setTerminate _ rfl))
    (Step.grabNoop _ 0 rfl rfl)

/-! ### The claims -/

/-- C1: `waitForCompletion` must keep waiting while the queue is non-empty
OR the busy count is positive, so with an empty queue and one dequeued job
still executing it must not return.  The loop condition in
`src/include/fbu/thread_pool.hpp` does exactly that; but the duplicate in
`src/cpp/thread_pool.hpp` joins the two tests with `&&`, so in the
reachable state where the single submitted job has been dequeued (empty
queue, busy count 1) its loop condition is already `false` and that
`waitForCompletion` returns while the job is still running. -/
theorem waitForCompletion_or_vs_and :
    (∀ s : PoolState,
        waitForCompletionCond s = false ↔ s.queue = [] ∧ s.busy ≤ 0) ∧
    Reachable (initState 1) s1c ∧
    s1c.queue = [] ∧ s1c.busy = 1 ∧
    waitForCompletionCond s1c = true ∧
    waitForCompletionCondCpp s1c = false := by
  refine ⟨?_, reach_s1c, by decide, by decide, by decide, by decide⟩
  intro s
  simp [waitForCompletionCond, List.length_eq_zero]

/-- C2: in any reachable state in which `waitForCompletion`'s loop
condition is `false` (empty queue and no busy worker, checked under the
lock), the shared counter incremented by every job body equals the number
of jobs submitted so far, and the finished jobs are exactly the submitted
jobs (each submitted job ran exactly once). -/
theorem drain_counter_exact (n : Nat) (s : PoolState)
    (h : Reachable (initState n) s)
    (hdone : waitForCompletionCond s = false) :
    s.counter = (s.submitted.length : Int) ∧ s.finished.Perm s.submitted := by
  obtain ⟨hw, hb, hsub, hdeq, hcnt, hA, hB⟩ := reachable_inv h
  simp [waitForCompletionCond, List.length_eq_zero] at hdone
  obtain ⟨hq, hbz⟩ := hdone
  have hcp : s.workers.countP isBusyWorker = 0 := by omega
  have hheld : allHeldJobs s.workers = 0 :=
    allHeldJobs_eq_zero_of_countP_zero s.workers hcp
  rw [hheld, add_zero, Multiset.coe_eq_coe] at hdeq
  have hsub2 : s.submitted = s.dequeued := by simpa [hq] using hsub
  have hperm : s.finished.Perm s.submitted := hsub2 ▸ hdeq.symm
  refine ⟨?_, hperm⟩
  rw [hcnt, hperm.length_eq]

/-- Closed witness for C2: after the single-worker trace in which one job
was submitted, dequeued, executed and its busy decrement performed, the
drain condition is `false` and the counter equals the one submission. -/
theorem drain_counter_exact_witness :
    s1e.counter = (s1e.submitted.length : Int) ∧ s1e.finished.Perm s1e.submitted :=
  drain_counter_exact 1 s1e reach_s1e (by decide)

/-- C3: `ThreadPoolJobsExecutor::waitForCompletion` for executor A returns
exactly when A's own `mNumJobs` is zero, which — once A's submissions have
both completed their two lock regions — happens exactly when every job A
submitted has finished, irrespective of executor B's jobs; symmetrically
for B.  The final conjunct exhibits a reachable shared-pool state where
A's wait predicate is satisfied while B still has an unfinished job in the
queue. -/
theorem executor_wait_independent (n : Nat) (s : PoolState)
    (h : Reachable (initState n) s) :
    (s.pendingA = 0 →
      (execWaitDoneA s = true ↔
        ocount .execA s.finished = ocount .execA s.submitted)) ∧
    (s.pendingB = 0 →
      (execWaitDoneB s = true ↔
        ocount .execB s.finished = ocount .execB s.submitted)) ∧
    (Reachable (initState 1) s3h ∧ execWaitDoneA s3h = true ∧
      execWaitDoneB s3h = false ∧ ocount .execB s3h.queue = 1) := by
  obtain ⟨hw, hb, hsub, hdeq, hcnt, hA, hB⟩ := reachable_inv h
  refine ⟨?_, ?_, reach_s3h, by decide, by decide, by decide⟩
  · intro hp
    rw [hp] at hA
    simp [execWaitDoneA]
    omega
  · intro hp
    rw [hp] at hB
    simp [execWaitDoneB]
    omega

/-- Closed witness for C3: in the shared-pool trace state, A's submissions
are all enqueued and finished, so its wait predicate is characterised as
claimed. -/
theorem executor_wait_independent_witness :
    execWaitDoneA s3h = true ↔
      ocount .execA s3h.finished = ocount .execA s3h.submitted :=
  (executor_wait_independent 1 s3h reach_s3h).1 (by decide)

/-- C4: `addJob` appends at the tail of the queue and `grabNextJob` always
removes the front, so in every reachable state the submission history is
the dequeue history followed by the current queue — jobs are dequeued in
submission order.  Completion order is not so constrained: the final
conjunct exhibits a reachable two-worker state whose finished order is the
reverse of its submission order. -/
theorem fifo_dequeue_order :
    (∀ (s : PoolState) (j : Job),
        (addJobResult s j).queue = s.queue ++ [j]) ∧
    (∀ (s : PoolState) (i : Nat) (j : Job) (rest : List Job),
        (grabResult s i j rest).queue = rest ∧
        (grabResult s i j rest).dequeued = s.dequeued ++ [j]) ∧
    (∀ (n : Nat) (s : PoolState), Reachable (initState n) s →
        s.submitted = s.dequeued ++ s.queue) ∧
    (Reachable (initState 2) s4h ∧ s4h.submitted = [job1, job2] ∧
      s4h.dequeued = [job1, job2] ∧ s4h.finished = [job2, job1]) := by
  refine ⟨fun s j => rfl, fun s i j rest => ⟨rfl, rfl⟩, ?_,
    reach_s4h, by decide, by decide, by decide⟩
  intro n s h
  exact (reachable_inv h).subEq

/-- Closed witness for C4: the FIFO decomposition evaluated on the
two-worker trace state. -/
theorem fifo_dequeue_order_witness :
    s4h.submitted = s4h.dequeued ++ s4h.queue :=
  fifo_dequeue_order.2.2.1 2 s4h reach_s4h

/-- C5: a pool constructed with requested count `N ≥ 1` has exactly `N`
workers; with `0` it uses the hardware concurrency when nonzero and 2
otherwise, hence always a positive count; and no transition of the system
changes the number of workers. -/
theorem numThreads_constructor :
    (∀ req hw : Nat, 1 ≤ req → numThreadsFor req hw = req) ∧
    (∀ hw : Nat, hw ≠ 0 → numThreadsFor 0 hw = hw) ∧
    numThreadsFor 0 0 = 2 ∧
    (∀ hw : Nat, 0 < numThreadsFor 0 hw) ∧
    (getNumThreads (initState (numThreadsFor 0 0)) = 2) ∧
    (∀ s s' : PoolState, Step s s' → getNumThreads s' = getNumThreads s) := by
  refine ⟨?_, ?_, rfl, ?_, by decide, ?_⟩
  · intro req hw h
    simp [numThreadsFor]
    omega
  · intro hw h
    simp [numThreadsFor, h]
  · intro hw
    by_cases h : hw = 0
    all_goals simp [numThreadsFor, h]
    all_goals omega
  · intro s s' hs
    cases hs <;>
      simp [getNumThreads, addJobResult, execIncAResult, execEnqAResult,
        execIncBResult, execEnqBResult, setTerminateResult, enterGrabResult,
        stopResult, grabResult, grabNoopResult, runBodyResult,
        finishBusyResult, noopFinishResult]

/-- Closed witness for C5. -/
theorem numThreads_constructor_witness :
    numThreadsFor 3 8 = 3 ∧ numThreadsFor 0 8 = 8 :=
  ⟨numThreads_constructor.1 3 8 (by decide),
   numThreads_constructor.2.1 8 (by decide)⟩

/-- C6: in every reachable state of a pool started with `n` workers, the
busy count lies in `[0, n]`: it equals the number of workers between
their increment in `grabNextJob` and their decrement in `threadExecLoop`,
which is at most the fixed worker count. -/
theorem busy_count_in_range (n : Nat) (s : PoolState)
    (h : Reachable (initState n) s) :
    0 ≤ getNumBusyThreads s ∧ getNumBusyThreads s ≤ (n : Int) ∧
    getNumThreads s = n := by
  obtain ⟨hw, hb, hsub, hdeq, hcnt, hA, hB⟩ := reachable_inv h
  have hle : s.workers.countP isBusyWorker ≤ s.workers.length :=
    List.countP_le_length _
  refine ⟨?_, ?_, hw⟩
  all_goals simp [getNumBusyThreads, hb]
  all_goals omega

/-- Closed witness for C6: the busy bound evaluated at the state where the
single worker is executing the dequeued job. -/
theorem busy_count_in_range_witness :
    0 ≤ getNumBusyThreads s1c ∧ getNumBusyThreads s1c ≤ (1 : Int) ∧
    getNumThreads s1c = 1 :=
  busy_count_in_range 1 s1c reach_s1c

/-- C7: for any interleaved history of `C` increments and `C` decrements
obeying the pairing discipline (no decrement overtakes its increments),
running the history from count `0` fires no assertion and ends at exactly
`0`, where `waitForCompletion`'s predicate is satisfied; and on a
non-negative count a decrement exactly undoes an increment. -/
theorem jobCounter_inc_dec_balanced (ops : List JCOp) (C : Nat)
    (hv : ValidAt 0 ops) (hI : countInc ops = C) (hD : countDec ops = C) :
    (runOps 0 ops = some 0 ∧ JobCounterWaitDone 0 = true) ∧
    (∀ c : Int, 0 ≤ c → JobCounterDecrement (JobCounterIncrement c) = some c) := by
  refine ⟨⟨?_, by decide⟩, ?_⟩
  · rw [runOps_valid ops 0 hv, hI, hD]
    simp
  · intro c hc
    simp [JobCounterDecrement, JobCounterIncrement]
    omega

/-- Closed witness for C7: the history inc, inc, dec, dec with `C = 2`. -/
theorem jobCounter_inc_dec_balanced_witness :
    runOps 0 [JCOp.inc, JCOp.inc, JCOp.dec, JCOp.dec] = some 0 :=
  (jobCounter_inc_dec_balanced [JCOp.inc, JCOp.inc, JCOp.dec, JCOp.dec] 2
    (by decide) (by decide) (by decide)).1.1

/-- C8: under the precondition that every decrement is preceded by strictly
more increments, the `assert(mNumJobs > 0)` in `JobCounter::decrement`
never fires and every intermediate count is non-negative; calling
`decrement` with the count at zero fires the assertion (crash), it is not
a recoverable return. -/
theorem jobCounter_assert_never_fires (ops : List JCOp)
    (hv : ValidAt 0 ops) :
    (∀ k, ∃ c : Int, runOps 0 (ops.take k) = some c ∧ 0 ≤ c) ∧
    JobCounterDecrement 0 = none := by
  refine ⟨?_, by decide⟩
  intro k
  have hvk : ValidAt 0 (ops.take k) := validAt_take hv k
  refine ⟨(0 : Int) + (countInc (ops.take k) : Int) - (countDec (ops.take k) : Int),
    runOps_valid (ops.take k) 0 hvk, ?_⟩
  have := hvk (ops.take k).length (le_refl _)
  rw [List.take_length] at this
  omega

/-- Closed witness for C8: the history inc, dec never trips the assertion
at any point. -/
theorem jobCounter_assert_never_fires_witness :
    ∃ c : Int, runOps 0 ([JCOp.inc, JCOp.dec].take 2) = some c ∧ 0 ≤ c :=
  (jobCounter_assert_never_fires [JCOp.inc, JCOp.dec] (by decide)).1 2

/-- C9: the termination flag is monotone (never reset once set); the only
transition that turns it from `false` to `true` is the destructor's
`mTerminate = true`, which changes nothing else — in particular it does
not drain the queue; after the flag is set no step ever dequeues a job
(queued jobs are abandoned, only already-dequeued ones still run); and
when every worker has been joined (all stopped) the destructor's final
`assert(mNumBusyThreads == 0)` holds. -/
theorem terminate_flag_one_shot :
    (∀ s s' : PoolState, Step s s' → s.terminate = true → s'.terminate = true) ∧
    (∀ s s' : PoolState, Step s s' → s.terminate = false → s'.terminate = true →
        s' = setTerminateResult s) ∧
    (∀ s : PoolState, (setTerminateResult s).queue = s.queue ∧
        (setTerminateResult s).busy = s.busy ∧
        (setTerminateResult s).workers = s.workers ∧
        (setTerminateResult s).dequeued = s.dequeued) ∧
    (∀ s s' : PoolState, Step s s' → s.terminate = true →
        s'.dequeued = s.dequeued) ∧
    (∀ (n : Nat) (s : PoolState), Reachable (initState n) s →
        (∀ w ∈ s.workers, w = .stopped) → getNumBusyThreads s = 0) := by
  refine ⟨?_, ?_, fun s => ⟨rfl, rfl, rfl, rfl⟩, ?_, ?_⟩
  · intro s s' hs ht
    cases hs <;>
      simp_all [addJobResult, execIncAResult, execEnqAResult, execIncBResult,
        execEnqBResult, setTerminateResult, enterGrabResult, stopResult,
        grabResult, grabNoopResult, runBodyResult, finishBusyResult,
        noopFinishResult]
  · intro s s' hs hf ht
    cases hs <;>
      simp_all [addJobResult, execIncAResult, execEnqAResult, execIncBResult,
        execEnqBResult, setTerminateResult, enterGrabResult, stopResult,
        grabResult, grabNoopResult, runBodyResult, finishBusyResult,
        noopFinishResult]
  · intro s s' hs ht
    cases hs <;>
      simp_all [addJobResult, execIncAResult, execEnqAResult, execIncBResult,
        execEnqBResult, setTerminateResult, enterGrabResult, stopResult,
        grabResult, grabNoopResult, runBodyResult, finishBusyResult,
        noopFinishResult]
  · intro n s h hstop
    obtain ⟨hw, hb, _, _, _, _, _⟩ := reachable_inv h
    have hcp : s.workers.countP isBusyWorker = 0 := by
      rw [List.countP_eq_length_filter, List.length_eq_zero,
        List.filter_eq_nil_iff]
      intro w hwmem
      rw [hstop w hwmem]
      simp [isBusyWorker]
    simp [getNumBusyThreads, hb, hcp]

/-- Closed witness for C9: the monotonicity conjunct applied to a concrete
step taken after the flag is set. -/
theorem terminate_flag_one_shot_witness :
    (stopResult (setTerminateResult (initState 1)) 0).terminate = true :=
  terminate_flag_one_shot.1 (setTerminateResult (initState 1))
    (stopResult (setTerminateResult (initState 1)) 0)
    (Step.stop _ 0 rfl rfl) rfl

/-- C10: a worker whose wait in `grabNextJob` is released by the
termination flag leaves the queue and the dequeue history untouched and
still increments the busy count (the increment precedes the flag check),
so `getNumBusyThreads()` can be positive during shutdown with no
caller-submitted job executing: the final conjunct exhibits such a
reachable state. -/
theorem grabNoop_busy_transient :
    (∀ (s : PoolState) (i : Nat),
        s.workers.get? i = some .waiting → s.terminate = true →
        Step s (grabNoopResult s i) ∧
        (grabNoopResult s i).queue = s.queue ∧
        (grabNoopResult s i).dequeued = s.dequeued ∧
        getNumBusyThreads (grabNoopResult s i) = getNumBusyThreads s + 1) ∧
    (Reachable (initState 1) s10c ∧ s10c.terminate = true ∧
      getNumBusyThreads s10c = 1 ∧ s10c.queue = [] ∧
      ∀ w ∈ s10c.workers, ∀ j : Job, w ≠ WorkerState.running j) := by
  refine ⟨?_, reach_s10c, by decide, by decide, by decide, ?_⟩
  · intro s i hw ht
    exact ⟨Step.grabNoop s i hw ht, rfl, rfl, rfl⟩
  · intro w hw j
    have : w = WorkerState.noop := by
      simpa [s10c, grabNoopResult, setTerminateResult, s1a, enterGrabResult,
        initState] using hw
    rw [this]
    simp

/-- Closed witness for C10: the frame conjunct applied to the worker
waiting when the destructor sets the flag. -/
theorem grabNoop_busy_transient_witness :
    Step (setTerminateResult s1a) (grabNoopResult (setTerminateResult s1a) 0) ∧
    (grabNoopResult (setTerminateResult s1a) 0).queue = (setTerminateResult s1a).queue ∧
    (grabNoopResult (setTerminateResult s1a) 0).dequeued = (setTerminateResult s1a).dequeued ∧
    getNumBusyThreads (grabNoopResult (setTerminateResult s1a) 0)
      = getNumBusyThreads (setTerminateResult s1a) + 1 :=
  grabNoop_busy_transient.1 (setTerminateResult s1a) 0 rfl rfl

end Fbu
